import Mathlib

/-!
Verification of the CodePolyglot per-language static code analyzer
(`src/core/analyzer.py`) against its natural-language specification.

The analyzer is embedded shallowly: source text is a `String` (a list of
characters), Python's `str.splitlines`, `str.strip`, `str.startswith`,
substring search and the concrete regular-expression patterns of the
lexical paths are modelled as executable Lean functions over `List Char`,
and the Python syntax tree consumed by the structured path is modelled as
an inductive type `PyNode` whose parse is supplied as an `Option PyNode`
oracle (`none` embeds a parse failure caught by the `try/except`).
The float `comment_ratio` is modelled as an exact rational.
-/

namespace CodePolyglot

/-- Whitespace as stripped by Python's `str.strip()` and matched by `\s`
(ASCII/Latin-1 part plus the Unicode line/paragraph separators). -/
def isWsChar (c : Char) : Bool :=
  c = ' ' || c = '\t' || c = '\n' || c = '\r' || c = '\x0b' || c = '\x0c' ||
  c = '\x1c' || c = '\x1d' || c = '\x1e' || c = '\x1f' || c = '\x85' ||
  c = '\xa0' || c = ' ' || c = ' '

/-- Word characters matched by the regex class `\w` (ASCII part). -/
def isWordChar (c : Char) : Bool :=
  c.isAlphanum || c = '_'

/-- Line boundary characters recognised by Python's `str.splitlines`. -/
def isLineBoundary (c : Char) : Bool :=
  c = '\n' || c = '\r' || c = '\x0b' || c = '\x0c' ||
  c = '\x1c' || c = '\x1d' || c = '\x1e' || c = '\x85' ||
  c = ' ' || c = ' '

/-- `str.strip()`: drop leading and trailing whitespace. -/
def trimL (s : List Char) : List Char :=
  ((s.dropWhile isWsChar).reverse.dropWhile isWsChar).reverse

/-- `sub in s`: substring containment, as in Python's `in` on strings. -/
def hasSub (sub : List Char) : List Char → Bool
  | [] => sub.isEmpty
  | c :: t => sub.isPrefixOf (c :: t) || hasSub sub t

/-- `s.find(sub)` restricted to the case where `sub` occurs in `s`:
index of the first occurrence. -/
def findSub (sub : List Char) : List Char → Nat
  | [] => 0
  | c :: t => if sub.isPrefixOf (c :: t) then 0 else 1 + findSub sub t

/-- Collapse the two-character boundary `\r\n` to `\n`; all other line
boundaries recognised by `str.splitlines` are single characters. -/
def normNl : List Char → List Char
  | '\r' :: '\n' :: rest => '\n' :: normNl rest
  | c :: rest => c :: normNl rest
  | [] => []

/-- Accumulate the current line (reversed) and emit it at each boundary
character; a final unterminated segment is emitted only if non-empty. -/
def splitlinesAux : List Char → List Char → List (List Char)
  | [], acc => if acc.isEmpty then [] else [acc.reverse]
  | c :: rest, acc =>
    if isLineBoundary c then acc.reverse :: splitlinesAux rest []
    else splitlinesAux rest (c :: acc)

/-- Python's `str.splitlines()` over a character list: `\r\n` is one
boundary, a trailing boundary does not yield a trailing empty line. -/
def splitlinesC (s : List Char) : List (List Char) :=
  splitlinesAux (normNl s) []

/-- Number of boundary characters plus one: the number of
boundary-delimited segments when a trailing unterminated segment and a
trailing empty one both count. -/
def segCount : List Char → Nat
  | [] => 1
  | c :: rest => (if isLineBoundary c then 1 else 0) + segCount rest

/-- Whether the text ends in a line boundary. -/
def endsWithBoundary : List Char → Bool
  | [] => false
  | c :: rest => if rest.isEmpty then isLineBoundary c else endsWithBoundary rest

/-- Modelled from the spec's testable property: the "number of
newline-delimited lines in source": one more line than there are
newlines (`\r\n` counting as one newline), except that a trailing
newline does not contribute an extra empty line, and the empty source
has zero lines. -/
def specLineCount (s : List Char) : Nat :=
  if s = [] then 0
  else segCount (normNl s) - (if endsWithBoundary (normNl s) then 1 else 0)

/-- Per-function metadata recorded by the structured path
(`{'name', 'line', 'complexity', 'args'}`). -/
structure FunctionInfo where
  name : String
  line : Nat
  complexity : Nat
  args : Nat
  deriving DecidableEq

/-- Per-class metadata recorded by the structured path
(`{'name', 'line', 'methods'}`). -/
structure ClassInfo where
  name : String
  line : Nat
  methods : Nat
  deriving DecidableEq

/-- The `AnalysisResult` dataclass. The float field is modelled as an
exact rational. -/
structure AnalysisResult where
  lines_of_code : Nat
  comment_lines : Nat
  function_count : Nat
  class_count : Nat
  cyclomatic_complexity : Nat
  comment_ratio : ℚ
  imports : List String
  functions : List FunctionInfo
  classes : List ClassInfo
  comments : List String
  deriving DecidableEq

/-- `AnalysisResult()` with the dataclass defaults (zeros and the
`__post_init__` empty lists). -/
def emptyResult : AnalysisResult :=
  { lines_of_code := 0, comment_lines := 0, function_count := 0,
    class_count := 0, cyclomatic_complexity := 0, comment_ratio := 0,
    imports := [], functions := [], classes := [], comments := [] }

/-- Predicate of `_analyze_generic`'s comment count: the stripped line
starts with one of `//`, `#`, `/*`, `*`. -/
def genericIsCommentLine (line : List Char) : Bool :=
  ['/', '/'].isPrefixOf (trimL line) || ['#'].isPrefixOf (trimL line) ||
  ['/', '*'].isPrefixOf (trimL line) || ['*'].isPrefixOf (trimL line)

/-- `_analyze_generic`: line count, naive comment-line count and the
ratio; everything else stays at the dataclass defaults. -/
def analyze_generic (code : String) : AnalysisResult :=
  let lines := splitlinesC code.data
  let cl := (lines.filter genericIsCommentLine).length
  { emptyResult with
    lines_of_code := lines.length,
    comment_lines := cl,
    comment_ratio := if lines.length > 0 then (cl : ℚ) / (lines.length : ℚ) else 0 }

/-- The Python syntax tree consumed by `_analyze_python`. Each node kind
the analyzer inspects is a constructor; every other node kind (Module,
With, expressions, ...) is `other`. Children lists are the nodes yielded
by `ast.iter_child_nodes`; `comprehension` is the per-clause node of a
comprehension/generator expression. -/
inductive PyNode where
  | functionDef (name : String) (lineno : Nat) (argCount : Nat) (body : List PyNode)
  | asyncFunctionDef (name : String) (lineno : Nat) (argCount : Nat) (body : List PyNode)
  | classDef (name : String) (lineno : Nat) (body : List PyNode)
  | importStmt (names : List String)
  | importFrom (module : String) (names : List String)
  | ifStmt (children : List PyNode)
  | whileStmt (children : List PyNode)
  | forStmt (children : List PyNode)
  | asyncFor (children : List PyNode)
  | asyncWith (children : List PyNode)
  | tryStmt (children : List PyNode)
  | exceptHandler (children : List PyNode)
  | assertStmt (children : List PyNode)
  | boolOp (children : List PyNode)
  | comprehension (children : List PyNode)
  | other (children : List PyNode)

namespace PyNode

/-- The child nodes of a node (`ast.iter_child_nodes`). -/
def children : PyNode → List PyNode
  | functionDef _ _ _ b => b
  | asyncFunctionDef _ _ _ b => b
  | classDef _ _ b => b
  | importStmt _ => []
  | importFrom _ _ => []
  | ifStmt cs => cs
  | whileStmt cs => cs
  | forStmt cs => cs
  | asyncFor cs => cs
  | asyncWith cs => cs
  | tryStmt cs => cs
  | exceptHandler cs => cs
  | assertStmt cs => cs
  | boolOp cs => cs
  | comprehension cs => cs
  | other cs => cs

/-- The node kinds counted by `_calculate_cyclomatic_complexity`:
`If, While, For, AsyncFor, AsyncWith, Try, ExceptHandler, Assert,
BoolOp` and `comprehension`. -/
def isBranch : PyNode → Bool
  | ifStmt _ => true
  | whileStmt _ => true
  | forStmt _ => true
  | asyncFor _ => true
  | asyncWith _ => true
  | tryStmt _ => true
  | exceptHandler _ => true
  | assertStmt _ => true
  | boolOp _ => true
  | comprehension _ => true
  | _ => false

/-- Whether a node is an `ast.FunctionDef` (plain, not async). -/
def isFunctionDefNode : PyNode → Bool
  | functionDef _ _ _ _ => true
  | _ => false

end PyNode

mutual

/-- Number of nodes in a subtree (the node and all its descendants). -/
def nodeCount : PyNode → Nat
  | .functionDef _ _ _ b => 1 + forestCount b
  | .asyncFunctionDef _ _ _ b => 1 + forestCount b
  | .classDef _ _ b => 1 + forestCount b
  | .importStmt _ => 1
  | .importFrom _ _ => 1
  | .ifStmt cs => 1 + forestCount cs
  | .whileStmt cs => 1 + forestCount cs
  | .forStmt cs => 1 + forestCount cs
  | .asyncFor cs => 1 + forestCount cs
  | .asyncWith cs => 1 + forestCount cs
  | .tryStmt cs => 1 + forestCount cs
  | .exceptHandler cs => 1 + forestCount cs
  | .assertStmt cs => 1 + forestCount cs
  | .boolOp cs => 1 + forestCount cs
  | .comprehension cs => 1 + forestCount cs
  | .other cs => 1 + forestCount cs

/-- Number of nodes in all subtrees of a list of nodes. -/
def forestCount : List PyNode → Nat
  | [] => 0
  | n :: t => nodeCount n + forestCount t

end

theorem nodeCount_eq (n : PyNode) : nodeCount n = 1 + forestCount n.children := by
  cases n <;> simp [nodeCount, PyNode.children, forestCount]

theorem forestCount_append (a b : List PyNode) :
    forestCount (a ++ b) = forestCount a + forestCount b := by
  induction a with
  | nil => simp [forestCount]
  | cons x t ih => simp [forestCount, ih]; omega

theorem nodeCount_pos (n : PyNode) : 0 < nodeCount n := by
  rw [nodeCount_eq]; omega

/-- `ast.walk` on a queue of nodes, breadth-first: yield the head of the
queue, enqueue its children. The fuel argument makes the recursion
structural; `forestCount queue` is exactly the number of steps, so the
walk is invoked with sufficient fuel and the zero-fuel arm is never
reached (`walkFuel_count`). -/
def walkFuel : Nat → List PyNode → List PyNode
  | 0, _ => []
  | _ + 1, [] => []
  | fuel + 1, n :: queue => n :: walkFuel fuel (queue ++ n.children)

theorem walkFuel_fuel_irrel (fuel fuel' : Nat) (q : List PyNode)
    (h : forestCount q ≤ fuel) (h' : forestCount q ≤ fuel') :
    walkFuel fuel q = walkFuel fuel' q := by
  induction fuel generalizing fuel' q with
  | zero =>
    cases q with
    | nil => cases fuel' <;> simp [walkFuel]
    | cons n t => exact absurd h (by simp [forestCount]; have := nodeCount_pos n; omega)
  | succ f ih =>
    cases q with
    | nil => cases fuel' <;> simp [walkFuel]
    | cons n t =>
      cases fuel' with
      | zero => exact absurd h' (by simp [forestCount]; have := nodeCount_pos n; omega)
      | succ f' =>
        simp only [walkFuel, List.cons.injEq, true_and]
        apply ih <;>
          simp [forestCount_append, forestCount] at * <;>
          rw [nodeCount_eq n] at * <;> omega

/-- `ast.walk(node)`: the node followed by all its descendants, breadth
first. -/
def walk (n : PyNode) : List PyNode :=
  walkFuel (nodeCount n) [n]

/-- `_calculate_cyclomatic_complexity`: start at 1 and add 1 for every
walked node that is a branch kind. -/
def calculate_cyclomatic_complexity (node : PyNode) : Nat :=
  (walk node).foldl (fun c child => if child.isBranch then c + 1 else c) 1

/-- The body of `_analyze_python`'s `ast.walk` loop: on a `FunctionDef`
bump the count, take the running maximum of the complexity and record
the function; on a `ClassDef` bump the count and record the class with
its number of direct `FunctionDef` children; on imports extend
`imports` (dotted form for `from module import name`). -/
def pyWalkStep (r : AnalysisResult) (node : PyNode) : AnalysisResult :=
  match node with
  | .functionDef nm ln ac bd =>
    let fc := calculate_cyclomatic_complexity (.functionDef nm ln ac bd)
    { r with function_count := r.function_count + 1,
             cyclomatic_complexity := max r.cyclomatic_complexity fc,
             functions := r.functions ++ [⟨nm, ln, fc, ac⟩] }
  | .classDef nm ln bd =>
    { r with class_count := r.class_count + 1,
             classes := r.classes ++ [⟨nm, ln, (bd.filter PyNode.isFunctionDefNode).length⟩] }
  | .importStmt names => { r with imports := r.imports ++ names }
  | .importFrom m names =>
    { r with imports := r.imports ++ names.map (fun a => m ++ "." ++ a) }
  | _ => r

/-- The line of 70 `#` characters used as the separator prefix in
`_analyze_python`'s comment scan (`'#' * 70`). -/
def hash70 : List Char := List.replicate 70 '#'

/-- `_analyze_python`'s per-line comment test: the stripped line starts
with `#` but not with 70 `#`s. -/
def pyIsCommentLine (line : List Char) : Bool :=
  ['#'].isPrefixOf (trimL line) && ! hash70.isPrefixOf (trimL line)

/-- `line_stripped[1:].strip()`: comment text of a comment line. -/
def pyCommentText (line : List Char) : List Char :=
  trimL ((trimL line).drop 1)

/-- `_analyze_python`'s comment scan: count comment lines and collect
the non-empty comment texts in order. -/
def pyCommentScan (lines : List (List Char)) : Nat × List String :=
  lines.foldl
    (fun acc line =>
      if pyIsCommentLine line then
        (acc.1 + 1,
         if pyCommentText line ≠ [] then acc.2 ++ [String.mk (pyCommentText line)] else acc.2)
      else acc)
    (0, [])

/-- `_analyze_python`. The result of `ast.parse` is supplied as an
oracle: `none` embeds a parse failure, on which the `except` arm returns
the generic analysis. -/
def analyze_python (code : String) (tree : Option PyNode) : AnalysisResult :=
  match tree with
  | none => analyze_generic code
  | some t =>
    let lines := splitlinesC code.data
    let r1 := (walk t).foldl pyWalkStep { emptyResult with lines_of_code := lines.length }
    let scanned := pyCommentScan lines
    { r1 with
      comment_lines := scanned.1,
      comment_ratio :=
        if lines.length > 0 then (scanned.1 : ℚ) / (lines.length : ℚ) else 0,
      comments := scanned.2 }

/-- Scanner state of `_analyze_java`'s comment loop: `comment_lines`,
`comments`, `in_block_comment` and `block_comment_content`. -/
structure ScanState where
  count : Nat
  comments : List String
  inBlock : Bool
  acc : List (List Char)
  deriving DecidableEq

/-- Initial scanner state. -/
def initScan : ScanState := ⟨0, [], false, []⟩

/-- `' '.join(block_comment_content)`. -/
def joinSp (frags : List (List Char)) : String :=
  String.intercalate " " (frags.map String.mk)

/-- One iteration of `_analyze_java`'s comment loop on one line. -/
def javaLineStep (st : ScanState) (line : List Char) : ScanState :=
  let stripped := trimL line
  if st.inBlock then
    if hasSub ['*', '/'] line then
      let txt := trimL (line.take (findSub ['*', '/'] line))
      let acc2 := if txt ≠ [] then st.acc ++ [txt] else st.acc
      { count := st.count + 1,
        comments := if acc2 ≠ [] then st.comments ++ [joinSp acc2] else st.comments,
        inBlock := false, acc := [] }
    else
      let txt := trimL (line.filter (fun c => c ≠ '*'))
      { st with count := st.count + 1,
                acc := if txt ≠ [] then st.acc ++ [txt] else st.acc }
  else if ['/', '/'].isPrefixOf stripped then
    let txt := trimL (stripped.drop 2)
    { st with count := st.count + 1,
              comments := if txt ≠ [] then st.comments ++ [String.mk txt] else st.comments }
  else if ['/', '*'].isPrefixOf stripped then
    if hasSub ['*', '/'] stripped then
      let txt := trimL ((stripped.take (findSub ['*', '/'] stripped)).drop (findSub ['/', '*'] stripped + 2))
      { st with count := st.count + 1,
                comments := if txt ≠ [] then st.comments ++ [String.mk txt] else st.comments }
    else
      let txt := trimL (stripped.drop (findSub ['/', '*'] stripped + 2))
      { st with count := st.count + 1, inBlock := true,
                acc := if txt ≠ [] then st.acc ++ [txt] else st.acc }
  else st

/-- `_analyze_java`'s comment loop over all lines. -/
def scanJava (lines : List (List Char)) : ScanState :=
  lines.foldl javaLineStep initScan

/-- Scanner state of `_analyze_javascript`'s comment loop: unlike the
Java loop it keeps no accumulator of block-comment fragments. -/
structure JsScanState where
  count : Nat
  comments : List String
  inBlock : Bool
  deriving DecidableEq

/-- Initial JavaScript scanner state. -/
def initJsScan : JsScanState := ⟨0, [], false⟩

/-- One iteration of `_analyze_javascript`'s comment loop on one line:
inside a block only the closing line's prefix is appended; interior
lines merely count. -/
def jsLineStep (st : JsScanState) (line : List Char) : JsScanState :=
  let stripped := trimL line
  if st.inBlock then
    if hasSub ['*', '/'] line then
      let txt := trimL (line.take (findSub ['*', '/'] line))
      { count := st.count + 1,
        comments := if txt ≠ [] then st.comments ++ [String.mk txt] else st.comments,
        inBlock := false }
    else
      { st with count := st.count + 1 }
  else if ['/', '/'].isPrefixOf stripped then
    let txt := trimL (stripped.drop 2)
    { st with count := st.count + 1,
              comments := if txt ≠ [] then st.comments ++ [String.mk txt] else st.comments }
  else if ['/', '*'].isPrefixOf stripped then
    if hasSub ['*', '/'] stripped then
      let txt := trimL ((stripped.take (findSub ['*', '/'] stripped)).drop (findSub ['/', '*'] stripped + 2))
      { st with count := st.count + 1,
                comments := if txt ≠ [] then st.comments ++ [String.mk txt] else st.comments }
    else
      let txt := trimL (stripped.drop (findSub ['/', '*'] stripped + 2))
      { st with count := st.count + 1, inBlock := true,
                comments := if txt ≠ [] then st.comments ++ [String.mk txt] else st.comments }
  else st

/-- `_analyze_javascript`'s comment loop over all lines. -/
def scanJs (lines : List (List Char)) : JsScanState :=
  lines.foldl jsLineStep initJsScan

/-! Hand-compiled matchers for the concrete regular expressions of the
lexical paths. Each matcher tries the pattern at the start of the text
and returns the remaining suffix on success. The patterns are
deterministic except for the optional visibility group of the Java
class pattern, whose greedy-then-backtrack behaviour is made explicit. -/

/-- Match a literal, returning the suffix. -/
def matchLit (w s : List Char) : Option (List Char) :=
  if w.isPrefixOf s then some (s.drop w.length) else none

/-- Match a single literal character. -/
def matchChar (c : Char) : List Char → Option (List Char)
  | d :: t => if d = c then some t else none
  | [] => none

/-- Match `\s+` (greedy). -/
def matchWs1 : List Char → Option (List Char)
  | c :: t => if isWsChar c then some (t.dropWhile isWsChar) else none
  | [] => none

/-- Match `\w+` (greedy). -/
def matchWord1 : List Char → Option (List Char)
  | c :: t => if isWordChar c then some (t.dropWhile isWordChar) else none
  | [] => none

/-- Match `\s*` (greedy, always succeeds). -/
def dropWs (s : List Char) : List Char :=
  s.dropWhile isWsChar

/-- Tail `\([^)]*\)\s*\x7b` shared by the function-like patterns:
parenthesised parameter list followed by an opening brace. -/
def matchParenBrace (s : List Char) : Option (List Char) := do
  let s ← matchChar '(' s
  let s := s.dropWhile (fun c => c ≠ ')')
  let s ← matchChar ')' s
  matchChar '\x7b' (dropWs s)

/-- Java `function_pattern`
`(public|private|protected)\s+\w+\s+\w+\s*\([^)]*\)\s*\x7b`. -/
def javaFuncPat (s : List Char) : Option (List Char) := do
  let s ← matchLit "public".data s <|> matchLit "private".data s <|>
          matchLit "protected".data s
  let s ← matchWs1 s
  let s ← matchWord1 s
  let s ← matchWs1 s
  let s ← matchWord1 s
  matchParenBrace (dropWs s)

/-- The part of the Java `class_pattern` after the optional visibility
group: `\s*(class|interface|enum)\s+\w+`. -/
def javaClassTail (s : List Char) : Option (List Char) := do
  let s ← matchLit "class".data (dropWs s) <|> matchLit "interface".data (dropWs s) <|>
          matchLit "enum".data (dropWs s)
  let s ← matchWs1 s
  matchWord1 s

/-- Java `class_pattern` `(public|private|protected)?\s*(class|interface|enum)\s+\w+`:
greedy optional visibility with backtracking. -/
def javaClassPat (s : List Char) : Option (List Char) :=
  match matchLit "public".data s <|> matchLit "private".data s <|>
        matchLit "protected".data s with
  | some r => javaClassTail r <|> javaClassTail s
  | none => javaClassTail s

/-- Branch `function\s+\w+\s*\([^)]*\)\s*\x7b` of the JavaScript
`class_pattern` (a plain named function declaration). -/
def jsFuncDecl (s : List Char) : Option (List Char) := do
  let s ← matchLit "function".data s
  let s ← matchWs1 s
  let s ← matchWord1 s
  matchParenBrace (dropWs s)

/-- JavaScript `class_pattern` `(class\s+\w+|function\s+\w+\s*\([^)]*\)\s*\x7b)`. -/
def jsClassPat (s : List Char) : Option (List Char) :=
  (do
    let s ← matchLit "class".data s
    let s ← matchWs1 s
    matchWord1 s) <|>
  jsFuncDecl s

/-- JavaScript `function_pattern`
`(function\s+\w+|const\s+\w+\s*=\s*\([^)]*\)\s*=>|\w+\s*\([^)]*\)\s*\x7b)`. -/
def jsFuncPat (s : List Char) : Option (List Char) :=
  (do
    let s ← matchLit "function".data s
    let s ← matchWs1 s
    matchWord1 s) <|>
  (do
    let s ← matchLit "const".data s
    let s ← matchWs1 s
    let s ← matchWord1 s
    let s ← matchChar '=' (dropWs s)
    let s ← matchChar '(' (dropWs s)
    let s := s.dropWhile (fun c => c ≠ ')')
    let s ← matchChar ')' s
    matchLit "=>".data (dropWs s)) <|>
  (do
    let s ← matchWord1 s
    matchParenBrace (dropWs s))

/-- Fuel-driven scan of `re.findall`: at each position try the pattern,
on a match continue after its end (non-overlapping), otherwise advance
one character. All patterns here consume at least one character, so the
guard against a non-consuming match never fires. The fuel makes the
recursion structural; the text length is sufficient fuel
(`countMatchesFuel_irrel`). -/
def countMatchesFuel (pat : List Char → Option (List Char)) : Nat → List Char → Nat
  | 0, _ => 0
  | _ + 1, [] => 0
  | fuel + 1, c :: t =>
    match pat (c :: t) with
    | some r => if r.length < t.length + 1 then 1 + countMatchesFuel pat fuel r
                else 1 + countMatchesFuel pat fuel t
    | none => countMatchesFuel pat fuel t

/-- `len(re.findall(pattern, code))`. -/
def countMatches (pat : List Char → Option (List Char)) (s : List Char) : Nat :=
  countMatchesFuel pat s.length s

/-- `_analyze_java`: stateful comment scan plus regex counts over the
whole text; `cyclomatic_complexity` and `imports` are never assigned. -/
def analyze_java (code : String) : AnalysisResult :=
  let lines := splitlinesC code.data
  let st := scanJava lines
  { emptyResult with
    lines_of_code := lines.length,
    function_count := countMatches javaFuncPat code.data,
    class_count := countMatches javaClassPat code.data,
    comment_lines := st.count,
    comment_ratio := if lines.length > 0 then (st.count : ℚ) / (lines.length : ℚ) else 0,
    comments := st.comments }

/-- `_analyze_javascript`: stateful comment scan plus regex counts over
the whole text; `cyclomatic_complexity` and `imports` are never
assigned. -/
def analyze_javascript (code : String) : AnalysisResult :=
  let lines := splitlinesC code.data
  let st := scanJs lines
  { emptyResult with
    lines_of_code := lines.length,
    function_count := countMatches jsFuncPat code.data,
    class_count := countMatches jsClassPat code.data,
    comment_lines := st.count,
    comment_ratio := if lines.length > 0 then (st.count : ℚ) / (lines.length : ℚ) else 0,
    comments := st.comments }

/-- `analyze_code`: dispatch on the language tag; unrecognized tags go
to the generic fallback. The Python parse oracle is threaded through
(only the `python` branch consumes it). -/
def analyze_code (code : String) (language : String) (pyParse : Option PyNode) :
    AnalysisResult :=
  if language = "python" then analyze_python code pyParse
  else if language = "java" then analyze_java code
  else if language = "javascript" then analyze_javascript code
  else analyze_generic code

/-! ### Lemmas relating `splitlines` to the spec-side line count -/

theorem segCount_pos (s : List Char) : 0 < segCount s := by
  induction s with
  | nil => simp [segCount]
  | cons c t ih => simp [segCount]; omega

theorem splitlinesAux_length (s : List Char) (acc : List Char) :
    (splitlinesAux s acc).length =
      if s = [] then (if acc.isEmpty then 0 else 1)
      else segCount s - (if endsWithBoundary s then 1 else 0) := by
  induction s generalizing acc with
  | nil => simp only [splitlinesAux]; split <;> simp
  | cons c t ih =>
    by_cases hb : isLineBoundary c = true
    · simp only [splitlinesAux, hb, if_true, List.length_cons, ih, segCount,
        endsWithBoundary]
      cases t with
      | nil => simp [segCount]
      | cons d t' =>
        have hsc := segCount_pos (d :: t')
        simp only [List.cons_ne_nil, if_false, List.isEmpty_cons, Bool.false_eq_true,
          reduceIte]
        split <;> omega
    · simp only [splitlinesAux, hb, Bool.false_eq_true, if_false, ih, segCount,
        endsWithBoundary]
      cases t with
      | nil => simp [hb, segCount]
      | cons d t' =>
        have hsc := segCount_pos (d :: t')
        simp only [List.cons_ne_nil, if_false, List.isEmpty_cons, Bool.false_eq_true,
          reduceIte]
        omega

theorem normNl_nil_iff (s : List Char) : normNl s = [] ↔ s = [] := by
  induction s using normNl.induct <;> simp [normNl]

theorem splitlinesC_length (s : List Char) : (splitlinesC s).length = specLineCount s := by
  rw [splitlinesC, splitlinesAux_length, specLineCount]
  by_cases h : s = []
  · simp [h, normNl]
  · rw [if_neg (by simpa [normNl_nil_iff] using h), if_neg h]


/-! ### Lemmas about the structured path's walk fold -/

theorem pyWalkStep_lines_of_code (r : AnalysisResult) (n : PyNode) :
    (pyWalkStep r n).lines_of_code = r.lines_of_code := by
  cases n <;> simp [pyWalkStep]

theorem pyFold_lines_of_code (ns : List PyNode) (r : AnalysisResult) :
    (ns.foldl pyWalkStep r).lines_of_code = r.lines_of_code := by
  induction ns generalizing r with
  | nil => rfl
  | cons n t ih => rw [List.foldl_cons, ih, pyWalkStep_lines_of_code]

/-! ### C1: the comment-ratio invariant -/

theorem ratio_python (code : String) (parse : Option PyNode) :
    AnalysisResult.comment_ratio (analyze_python code parse) =
      if 0 < (analyze_python code parse).lines_of_code then
        ((analyze_python code parse).comment_lines : ℚ) /
          ((analyze_python code parse).lines_of_code : ℚ)
      else 0 := by
  cases parse with
  | none => simp only [analyze_python, analyze_generic]
  | some t => simp only [analyze_python, pyFold_lines_of_code]

theorem ratio_java (code : String) :
    AnalysisResult.comment_ratio (analyze_java code) =
      if 0 < (analyze_java code).lines_of_code then
        ((analyze_java code).comment_lines : ℚ) / ((analyze_java code).lines_of_code : ℚ)
      else 0 := by
  simp only [analyze_java]

theorem ratio_js (code : String) :
    AnalysisResult.comment_ratio (analyze_javascript code) =
      if 0 < (analyze_javascript code).lines_of_code then
        ((analyze_javascript code).comment_lines : ℚ) /
          ((analyze_javascript code).lines_of_code : ℚ)
      else 0 := by
  simp only [analyze_javascript]

theorem ratio_generic (code : String) :
    AnalysisResult.comment_ratio (analyze_generic code) =
      if 0 < (analyze_generic code).lines_of_code then
        ((analyze_generic code).comment_lines : ℚ) /
          ((analyze_generic code).lines_of_code : ℚ)
      else 0 := by
  simp only [analyze_generic]

/-- C1: for every input string and every language tag, the result of
`analyze_code` satisfies `comment_ratio = comment_lines / lines_of_code`
when `lines_of_code > 0` and `comment_ratio = 0` when
`lines_of_code = 0` (the float is modelled as an exact rational). -/
theorem c1_comment_ratio_invariant (code language : String) (pyParse : Option PyNode) :
    AnalysisResult.comment_ratio (analyze_code code language pyParse) =
      if 0 < (analyze_code code language pyParse).lines_of_code then
        ((analyze_code code language pyParse).comment_lines : ℚ) /
          ((analyze_code code language pyParse).lines_of_code : ℚ)
      else 0 := by
  unfold analyze_code
  by_cases h1 : language = "python"
  · rw [if_pos h1]; exact ratio_python code pyParse
  · rw [if_neg h1]
    by_cases h2 : language = "java"
    · rw [if_pos h2]; exact ratio_java code
    · rw [if_neg h2]
      by_cases h3 : language = "javascript"
      · rw [if_pos h3]; exact ratio_js code
      · rw [if_neg h3]; exact ratio_generic code

/-! ### C2: totality and the parse-failure fallback -/

/-- C2: `analyze_code` is a total function of its inputs (it is a Lean
function, so it returns a result on every input), and on the Python
path a parse failure (`none` from the parse oracle) yields exactly the
generic fallback analysis of the same input. -/
theorem c2_parse_failure_fallback (code : String) :
    analyze_python code none = analyze_generic code ∧
    analyze_code code "python" none = analyze_generic code := by
  exact ⟨rfl, by simp [analyze_code, analyze_python]⟩

/-! ### C8: frame effects of the lexical and generic paths -/

/-- C8: both lexical paths leave `cyclomatic_complexity` at its default
0 and `imports` empty, and the generic fallback leaves every field
other than `lines_of_code`, `comment_lines` and `comment_ratio` at its
default (0 or the empty sequence). -/
theorem c8_frame_defaults (code : String) :
    (analyze_java code).cyclomatic_complexity = 0 ∧
    (analyze_java code).imports = [] ∧
    (analyze_javascript code).cyclomatic_complexity = 0 ∧
    (analyze_javascript code).imports = [] ∧
    (analyze_generic code).function_count = 0 ∧
    (analyze_generic code).class_count = 0 ∧
    (analyze_generic code).cyclomatic_complexity = 0 ∧
    (analyze_generic code).imports = [] ∧
    (analyze_generic code).functions = [] ∧
    (analyze_generic code).classes = [] ∧
    (analyze_generic code).comments = [] := by
  refine ⟨?_, ?_, ?_, ?_, ?_, ?_, ?_, ?_, ?_, ?_, ?_⟩ <;>
    simp [analyze_java, analyze_javascript, analyze_generic, emptyResult]


/-! ### C7: line counting and the empty input -/

/-- C7: on every path, `lines_of_code` is the number of newline-delimited
lines of the source (trailing newline adding no extra line), and the
empty string yields the zero-valued result on every path (for the
Python tag, under the parse oracle values the real parser can produce
on the empty string: the empty module, or a failure). -/
theorem c7_line_count (code language : String) (pyParse : Option PyNode) :
    (analyze_code code language pyParse).lines_of_code = specLineCount code.data ∧
    (code = "" → (pyParse = some (.other []) ∨ pyParse = none) →
      analyze_code code language pyParse = emptyResult) := by
  constructor
  · rw [← splitlinesC_length]
    unfold analyze_code
    by_cases h1 : language = "python"
    · rw [if_pos h1]
      cases pyParse with
      | none => simp [analyze_python, analyze_generic]
      | some t => simp [analyze_python, pyFold_lines_of_code]
    · rw [if_neg h1]
      by_cases h2 : language = "java"
      · rw [if_pos h2]; simp [analyze_java]
      · rw [if_neg h2]
        by_cases h3 : language = "javascript"
        · rw [if_pos h3]; simp [analyze_javascript]
        · rw [if_neg h3]; simp [analyze_generic]
  · intro hc hp
    subst hc
    unfold analyze_code
    by_cases h1 : language = "python"
    · rw [if_pos h1]
      rcases hp with hp | hp <;> subst hp <;> decide
    · rw [if_neg h1]
      by_cases h2 : language = "java"
      · rw [if_pos h2]; decide
      · rw [if_neg h2]
        by_cases h3 : language = "javascript"
        · rw [if_pos h3]; decide
        · rw [if_neg h3]; decide

/-- Witness for C7 at concrete inputs: a two-line Java source with a
trailing newline, and the empty Python source. -/
theorem c7_line_count_witness :
    (analyze_code "a\nb\n" "java" none).lines_of_code = specLineCount "a\nb\n".data ∧
    analyze_code "" "python" (some (.other [])) = emptyResult :=
  ⟨(c7_line_count "a\nb\n" "java" none).1,
   (c7_line_count "" "python" (some (.other []))).2 rfl (Or.inl rfl)⟩

/-! ### C6: the 70-hash separator line -/

/-- C6: a line whose stripped form is the 70-character `#` separator is
counted as a comment line by the generic fallback (and adds exactly one
to its count), while the structured path's comment extraction treats it
as no comment line at all: it contributes nothing to `comment_lines`
or `comments` there. -/
theorem c6_separator_line (line : List Char) (h : trimL line = hash70) :
    genericIsCommentLine line = true ∧
    pyIsCommentLine line = false ∧
    (∀ pre post : List (List Char),
      ((pre ++ line :: post).filter genericIsCommentLine).length =
        ((pre ++ post).filter genericIsCommentLine).length + 1) ∧
    (∀ pre post : List (List Char),
      pyCommentScan (pre ++ line :: post) = pyCommentScan (pre ++ post)) := by
  have hg : genericIsCommentLine line = true := by
    simp only [genericIsCommentLine, h]
    decide
  have hpy : pyIsCommentLine line = false := by
    simp only [pyIsCommentLine, h]
    decide
  refine ⟨hg, hpy, ?_, ?_⟩
  · intro pre post
    simp [List.filter_append, List.filter_cons, hg]
    omega
  · intro pre post
    simp only [pyCommentScan, List.foldl_append, List.foldl_cons, hpy,
      Bool.false_eq_true, if_false]

/-- Witness for C6 at the separator line itself. -/
theorem c6_separator_line_witness :
    genericIsCommentLine hash70 = true ∧
    pyIsCommentLine hash70 = false ∧
    pyCommentScan [hash70] = pyCommentScan [] := by
  have h := c6_separator_line hash70 (by decide)
  exact ⟨h.1, h.2.1, by simpa using h.2.2.2 [] []⟩

/-! ### Branch counting on the Python tree (C3, C4, C9) -/

mutual

/-- Number of branch-kind nodes in a subtree (node included). -/
def specBranchTotal : PyNode → Nat
  | .functionDef _ _ _ b => branchForest b
  | .asyncFunctionDef _ _ _ b => branchForest b
  | .classDef _ _ b => branchForest b
  | .importStmt _ => 0
  | .importFrom _ _ => 0
  | .ifStmt cs => 1 + branchForest cs
  | .whileStmt cs => 1 + branchForest cs
  | .forStmt cs => 1 + branchForest cs
  | .asyncFor cs => 1 + branchForest cs
  | .asyncWith cs => 1 + branchForest cs
  | .tryStmt cs => 1 + branchForest cs
  | .exceptHandler cs => 1 + branchForest cs
  | .assertStmt cs => 1 + branchForest cs
  | .boolOp cs => 1 + branchForest cs
  | .comprehension cs => 1 + branchForest cs
  | .other cs => branchForest cs

/-- Number of branch-kind nodes in all subtrees of a list of nodes: for
a function node, `branchForest` of its children is exactly "the number
of its descendant nodes that are branch kinds". -/
def branchForest : List PyNode → Nat
  | [] => 0
  | n :: t => specBranchTotal n + branchForest t

end

theorem specBranchTotal_eq (n : PyNode) :
    specBranchTotal n = (if n.isBranch then 1 else 0) + branchForest n.children := by
  cases n <;> simp [specBranchTotal, PyNode.isBranch, PyNode.children, branchForest]

theorem branchForest_append (a b : List PyNode) :
    branchForest (a ++ b) = branchForest a + branchForest b := by
  induction a with
  | nil => simp [branchForest]
  | cons x t ih => simp [branchForest, ih]; omega

theorem walkFuel_countP_isBranch (fuel : Nat) (q : List PyNode)
    (h : forestCount q <= fuel) :
    (walkFuel fuel q).countP (fun n => n.isBranch) = branchForest q := by
  induction fuel generalizing q with
  | zero =>
    cases q with
    | nil => simp [walkFuel, branchForest]
    | cons n t =>
      exact absurd h (by simp [forestCount]; have := nodeCount_pos n; omega)
  | succ f ih =>
    cases q with
    | nil => simp [walkFuel, branchForest]
    | cons n t =>
      have hcount : forestCount (t ++ n.children) <= f := by
        rw [forestCount_append]
        simp only [forestCount] at h
        rw [nodeCount_eq n] at h
        omega
      simp only [walkFuel, List.countP_cons, ih _ hcount, branchForest_append,
        branchForest, specBranchTotal_eq n]
      split <;> omega

theorem foldl_branch_count (l : List PyNode) (a : Nat) :
    l.foldl (fun c child => if child.isBranch then c + 1 else c) a =
      a + l.countP (fun n => n.isBranch) := by
  induction l generalizing a with
  | nil => simp
  | cons x t ih =>
    by_cases hb : x.isBranch = true <;>
      simp [List.foldl_cons, List.countP_cons, ih, hb] <;> omega

/-- The complexity the analyzer computes for any node is one more than
the number of branch-kind nodes in its subtree. -/
theorem calc_complexity_eq (n : PyNode) :
    calculate_cyclomatic_complexity n = 1 + specBranchTotal n := by
  rw [calculate_cyclomatic_complexity, walk, foldl_branch_count,
    walkFuel_countP_isBranch _ _ (by simp [forestCount])]
  simp [branchForest]

theorem one_le_calc_complexity (n : PyNode) :
    1 <= calculate_cyclomatic_complexity n := by
  rw [calc_complexity_eq]; omega

/-- The function records that the walk fold appends: one entry per
`FunctionDef` node, in walk order, holding that node's complexity. -/
def pyFuncEntries (ns : List PyNode) : List FunctionInfo :=
  ns.filterMap fun n =>
    match n with
    | .functionDef nm ln ac bd =>
      some ⟨nm, ln, calculate_cyclomatic_complexity (.functionDef nm ln ac bd), ac⟩
    | _ => none

theorem pyFold_spec (ns : List PyNode) (r : AnalysisResult) :
    (ns.foldl pyWalkStep r).function_count = r.function_count + (pyFuncEntries ns).length ∧
    (ns.foldl pyWalkStep r).functions = r.functions ++ pyFuncEntries ns ∧
    (ns.foldl pyWalkStep r).cyclomatic_complexity =
      (pyFuncEntries ns).foldl (fun m e => max m e.complexity) r.cyclomatic_complexity := by
  induction ns generalizing r with
  | nil => simp [pyFuncEntries]
  | cons n t ih =>
    cases n <;>
      simp [pyFuncEntries, List.filterMap_cons, pyWalkStep, List.foldl_cons, ih] <;>
      omega

theorem mem_pyFuncEntries (ns : List PyNode) (f : FunctionInfo)
    (h : f ∈ pyFuncEntries ns) :
    ∃ nm ln ac bd, PyNode.functionDef nm ln ac bd ∈ ns ∧
      f = ⟨nm, ln, calculate_cyclomatic_complexity (.functionDef nm ln ac bd), ac⟩ := by
  induction ns with
  | nil => simp [pyFuncEntries] at h
  | cons n t ih =>
    rw [pyFuncEntries, List.filterMap_cons] at h
    cases n
    case functionDef nm ln ac bd =>
      simp only at h
      rcases List.mem_cons.mp h with h | h
      · exact ⟨nm, ln, ac, bd, List.mem_cons_self _ _, h⟩
      · obtain ⟨a, b, c, d, hm, he⟩ := ih h
        exact ⟨a, b, c, d, List.mem_cons_of_mem _ hm, he⟩
    all_goals
      simp only at h
      obtain ⟨a, b, c, d, hm, he⟩ := ih h
      exact ⟨a, b, c, d, List.mem_cons_of_mem _ hm, he⟩


theorem analyze_python_functions (code : String) (tree : PyNode) :
    (analyze_python code (some tree)).functions = pyFuncEntries (walk tree) := by
  simp only [analyze_python]
  rw [(pyFold_spec _ _).2.1]
  simp [emptyResult]

theorem analyze_python_function_count (code : String) (tree : PyNode) :
    (analyze_python code (some tree)).function_count = (pyFuncEntries (walk tree)).length := by
  simp only [analyze_python]
  rw [(pyFold_spec _ _).1]
  simp [emptyResult]

theorem analyze_python_cc (code : String) (tree : PyNode) :
    (analyze_python code (some tree)).cyclomatic_complexity =
      (pyFuncEntries (walk tree)).foldl (fun m e => max m e.complexity) 0 := by
  simp only [analyze_python]
  rw [(pyFold_spec _ _).2.2]
  simp [emptyResult]

/-! ### C3: per-function complexity -/

/-- C3: every function record the structured path detects carries a
complexity equal to 1 plus the number of branch-kind descendant nodes
(conditional, while, for, async-for, async-with, try, except-handler,
assert, boolean-operator chain, comprehension clause) of the detected
`FunctionDef` node; this holds for every `FunctionDef` node, and in
particular a function whose body is exactly one `if` and one `for`
has complexity 3. -/
theorem c3_function_complexity (code : String) (tree : PyNode) :
    (∀ f ∈ (analyze_python code (some tree)).functions,
      ∃ nm ln ac bd, PyNode.functionDef nm ln ac bd ∈ walk tree ∧
        f.complexity = 1 + branchForest bd) ∧
    (∀ (nm : String) (ln ac : Nat) (bd : List PyNode),
      calculate_cyclomatic_complexity (.functionDef nm ln ac bd) = 1 + branchForest bd) ∧
    calculate_cyclomatic_complexity (.functionDef "f" 1 0 [.ifStmt [], .forStmt []]) = 3 := by
  have hgen : ∀ (nm : String) (ln ac : Nat) (bd : List PyNode),
      calculate_cyclomatic_complexity (.functionDef nm ln ac bd) = 1 + branchForest bd := by
    intro nm ln ac bd
    rw [calc_complexity_eq]
    simp [specBranchTotal]
  refine ⟨?_, hgen, by decide⟩
  intro f hf
  rw [analyze_python_functions] at hf
  obtain ⟨nm, ln, ac, bd, hm, rfl⟩ := mem_pyFuncEntries _ _ hf
  exact ⟨nm, ln, ac, bd, hm, by simp [hgen]⟩

/-- Witness for C3: the detected function of a one-function module with
one `if` and one `for` has complexity `3 = 1 + 2`. -/
theorem c3_function_complexity_witness :
    ∃ nm ln ac bd,
      PyNode.functionDef nm ln ac bd ∈
        walk (.other [.functionDef "f" 1 1 [.other [], .ifStmt [.forStmt [.other []]]]]) ∧
      (⟨"f", 1, 3, 1⟩ : FunctionInfo).complexity = 1 + branchForest bd :=
  (c3_function_complexity "def f(x):\n    if x:\n        for i in x:\n            pass\n"
      (.other [.functionDef "f" 1 1 [.other [], .ifStmt [.forStmt [.other []]]]])).1
    ⟨"f", 1, 3, 1⟩ (by decide)

/-! ### C4: the record-level complexity (corrected) -/

theorem foldl_max_init_le (l : List Nat) (a : Nat) : a ≤ l.foldl max a := by
  induction l generalizing a with
  | nil => simp
  | cons x t ih => exact le_trans (le_max_left a x) (ih _)

theorem mem_le_foldl_max (l : List Nat) (a x : Nat) (h : x ∈ l) : x ≤ l.foldl max a := by
  induction l generalizing a with
  | nil => cases h
  | cons y t ih =>
    rcases List.mem_cons.mp h with rfl | h
    · exact le_trans (le_max_right a x) (foldl_max_init_le t _)
    · exact ih _ h

/-- C4 (amended): on the structured path the record-level
`cyclomatic_complexity` is the maximum of the per-function complexities
when at least one function is detected (and is then at least 1), and is
0 — not 1 — when no function is detected. -/
theorem c4_cc_is_max (code : String) (tree : PyNode) :
    (analyze_python code (some tree)).cyclomatic_complexity =
      (((analyze_python code (some tree)).functions).map FunctionInfo.complexity).foldl
        max 0 ∧
    ((analyze_python code (some tree)).functions = [] →
      (analyze_python code (some tree)).cyclomatic_complexity = 0) ∧
    ((analyze_python code (some tree)).functions ≠ [] →
      1 ≤ (analyze_python code (some tree)).cyclomatic_complexity) := by
  have hmax : (analyze_python code (some tree)).cyclomatic_complexity =
      (((analyze_python code (some tree)).functions).map FunctionInfo.complexity).foldl
        max 0 := by
    rw [analyze_python_cc, analyze_python_functions, List.foldl_map]
  refine ⟨hmax, ?_, ?_⟩
  · intro h
    rw [hmax, h]
    rfl
  · intro h
    rw [hmax]
    rcases List.exists_mem_of_ne_nil _ h with ⟨f, hf⟩
    have h1 : 1 ≤ f.complexity := by
      rw [analyze_python_functions] at hf
      obtain ⟨nm, ln, ac, bd, _, rfl⟩ := mem_pyFuncEntries _ _ hf
      exact one_le_calc_complexity _
    exact le_trans h1
      (mem_le_foldl_max _ 0 _ (List.mem_map_of_mem FunctionInfo.complexity hf))

/-- Witness for C4 at a one-function module. -/
theorem c4_cc_is_max_witness :
    1 ≤ (analyze_python "def f():\n    pass\n"
          (some (.other [.functionDef "f" 1 0 [.other []]]))).cyclomatic_complexity :=
  (c4_cc_is_max "def f():\n    pass\n"
    (.other [.functionDef "f" 1 0 [.other []]])).2.2 (by decide)

/-- Counterexample to C4 as stated: on the empty module no function is
detected and the record-level `cyclomatic_complexity` is 0, not 1. -/
theorem c4_counterexample_no_function_cc_zero :
    (analyze_code "" "python" (some (.other []))).function_count = 0 ∧
    (analyze_code "" "python" (some (.other []))).functions = [] ∧
    (analyze_code "" "python" (some (.other []))).cyclomatic_complexity = 0 ∧
    (analyze_code "" "python" (some (.other []))).cyclomatic_complexity ≠ 1 := by
  decide

/-! ### C9: async function definitions are not counted -/

theorem pyFuncEntries_nil_of_no_functionDef (ns : List PyNode)
    (h : ∀ n ∈ ns, n.isFunctionDefNode = false) : pyFuncEntries ns = [] := by
  induction ns with
  | nil => rfl
  | cons n t ih =>
    rw [pyFuncEntries, List.filterMap_cons]
    cases n
    case functionDef nm ln ac bd =>
      exact absurd (h _ (List.mem_cons_self _ _)) (by simp [PyNode.isFunctionDefNode])
    all_goals
      exact ih fun x hx => h x (List.mem_cons_of_mem _ hx)

/-- C9: when the parse tree contains no plain `FunctionDef` node (in
particular when it contains only `async def` function definitions),
the structured path detects no function: `function_count = 0`,
`functions` is empty, and the record-level `cyclomatic_complexity`
stays 0 (no async function's branch nodes contribute to it). -/
theorem c9_async_defs_not_counted (code : String) (tree : PyNode)
    (h : ∀ n ∈ walk tree, n.isFunctionDefNode = false) :
    (analyze_python code (some tree)).function_count = 0 ∧
    (analyze_python code (some tree)).functions = [] ∧
    (analyze_python code (some tree)).cyclomatic_complexity = 0 := by
  have he := pyFuncEntries_nil_of_no_functionDef _ h
  refine ⟨?_, ?_, ?_⟩
  · rw [analyze_python_function_count, he]; rfl
  · rw [analyze_python_functions, he]
  · rw [analyze_python_cc, he]; rfl

/-- Witness for C9: a module holding a single `async def` whose body
contains an `if`. -/
theorem c9_async_defs_not_counted_witness :
    (analyze_python "async def g(x):\n    if x:\n        pass\n"
      (some (.other [.asyncFunctionDef "g" 1 1 [.other [], .ifStmt [.other []]]]))).function_count = 0 ∧
    (analyze_python "async def g(x):\n    if x:\n        pass\n"
      (some (.other [.asyncFunctionDef "g" 1 1 [.other [], .ifStmt [.other []]]]))).functions = [] ∧
    (analyze_python "async def g(x):\n    if x:\n        pass\n"
      (some (.other [.asyncFunctionDef "g" 1 1 [.other [], .ifStmt [.other []]]]))).cyclomatic_complexity = 0 :=
  c9_async_defs_not_counted _ _ (by decide)


/-! ### C5: multi-line block comments on the lexical paths -/

/-- Interior fragment the Java scanner takes from a block-comment
opening line: the stripped text after `/*`. -/
def openerFrag (line : List Char) : List Char :=
  trimL ((trimL line).drop 2)

/-- Interior fragment the Java scanner takes from a block-comment
interior line: the line with all `*` removed, stripped. -/
def midFrag (line : List Char) : List Char :=
  trimL (line.filter (fun c => c ≠ '*'))

/-- Interior fragment both scanners take from a block-comment closing
line: the stripped text before `*/`. -/
def closerFrag (line : List Char) : List Char :=
  trimL (line.take (findSub ['*', '/'] line))

theorem findSub_of_prefix (sub s : List Char) (h : sub.isPrefixOf s = true)
    (hs : s ≠ []) : findSub sub s = 0 := by
  cases s with
  | nil => exact absurd rfl hs
  | cons c t => simp [findSub, h]

theorem not_slashslash_of_slashstar (s : List Char)
    (h : List.isPrefixOf ['/', '*'] s = true) :
    List.isPrefixOf ['/', '/'] s = false := by
  obtain ⟨t, rfl⟩ := List.isPrefixOf_iff_prefix.mp h
  simp [List.isPrefixOf]

theorem javaLineStep_offset (c0 : Nat) (cm0 : List String) (b : Bool)
    (a : List (List Char)) (line : List Char) :
    javaLineStep ⟨c0, cm0, b, a⟩ line =
      ⟨c0 + (javaLineStep ⟨0, [], b, a⟩ line).count,
       cm0 ++ (javaLineStep ⟨0, [], b, a⟩ line).comments,
       (javaLineStep ⟨0, [], b, a⟩ line).inBlock,
       (javaLineStep ⟨0, [], b, a⟩ line).acc⟩ := by
  simp only [javaLineStep]
  split_ifs <;> simp

theorem scanJava_offset (lines : List (List Char)) (c0 : Nat) (cm0 : List String)
    (b : Bool) (a : List (List Char)) :
    lines.foldl javaLineStep ⟨c0, cm0, b, a⟩ =
      ⟨c0 + (lines.foldl javaLineStep ⟨0, [], b, a⟩).count,
       cm0 ++ (lines.foldl javaLineStep ⟨0, [], b, a⟩).comments,
       (lines.foldl javaLineStep ⟨0, [], b, a⟩).inBlock,
       (lines.foldl javaLineStep ⟨0, [], b, a⟩).acc⟩ := by
  induction lines generalizing c0 cm0 b a with
  | nil => simp
  | cons l t ih =>
    simp only [List.foldl_cons]
    rcases hs : javaLineStep ⟨0, [], b, a⟩ l with ⟨sc, scm, sb, sa⟩
    rw [javaLineStep_offset c0 cm0 b a l, hs]
    simp only
    rw [ih (c0 + sc) (cm0 ++ scm) sb sa, ih sc scm sb sa]
    simp [Nat.add_assoc, List.append_assoc]

theorem jsLineStep_offset (c0 : Nat) (cm0 : List String) (b : Bool)
    (line : List Char) :
    jsLineStep ⟨c0, cm0, b⟩ line =
      ⟨c0 + (jsLineStep ⟨0, [], b⟩ line).count,
       cm0 ++ (jsLineStep ⟨0, [], b⟩ line).comments,
       (jsLineStep ⟨0, [], b⟩ line).inBlock⟩ := by
  simp only [jsLineStep]
  split_ifs <;> simp

theorem scanJs_offset (lines : List (List Char)) (c0 : Nat) (cm0 : List String)
    (b : Bool) :
    lines.foldl jsLineStep ⟨c0, cm0, b⟩ =
      ⟨c0 + (lines.foldl jsLineStep ⟨0, [], b⟩).count,
       cm0 ++ (lines.foldl jsLineStep ⟨0, [], b⟩).comments,
       (lines.foldl jsLineStep ⟨0, [], b⟩).inBlock⟩ := by
  induction lines generalizing c0 cm0 b with
  | nil => simp
  | cons l t ih =>
    simp only [List.foldl_cons]
    rcases hs : jsLineStep ⟨0, [], b⟩ l with ⟨sc, scm, sb⟩
    rw [jsLineStep_offset c0 cm0 b l, hs]
    simp only
    rw [ih (c0 + sc) (cm0 ++ scm) sb, ih sc scm sb]
    simp [Nat.add_assoc, List.append_assoc]

theorem javaLineStep_middle (c : Nat) (cm : List String) (acc : List (List Char))
    (m : List Char) (hm : hasSub ['*', '/'] m = false) :
    javaLineStep ⟨c, cm, true, acc⟩ m =
      ⟨c + 1, cm, true, acc ++ (if midFrag m ≠ [] then [midFrag m] else [])⟩ := by
  simp only [javaLineStep, hm, midFrag, Bool.false_eq_true, reduceIte]
  split <;> simp

theorem javaFold_middles (ms : List (List Char))
    (h : ∀ m ∈ ms, hasSub ['*', '/'] m = false) (c : Nat) (cm : List String)
    (acc : List (List Char)) :
    ms.foldl javaLineStep ⟨c, cm, true, acc⟩ =
      ⟨c + ms.length, cm, true,
       acc ++ (ms.map midFrag).filter (fun f => f ≠ [])⟩ := by
  induction ms generalizing c acc with
  | nil => simp
  | cons m t ih =>
    simp only [List.foldl_cons]
    rw [javaLineStep_middle c cm acc m (h m (List.mem_cons_self _ _)),
      ih (fun x hx => h x (List.mem_cons_of_mem _ hx))]
    simp only [List.map_cons, List.filter_cons, List.length_cons, ScanState.mk.injEq]
    refine ⟨by omega, trivial, trivial, ?_⟩
    split <;> simp_all

theorem jsLineStep_middle (c : Nat) (cm : List String) (m : List Char)
    (hm : hasSub ['*', '/'] m = false) :
    jsLineStep ⟨c, cm, true⟩ m = ⟨c + 1, cm, true⟩ := by
  simp [jsLineStep, hm]

theorem jsFold_middles (ms : List (List Char))
    (h : ∀ m ∈ ms, hasSub ['*', '/'] m = false) (c : Nat) (cm : List String) :
    ms.foldl jsLineStep ⟨c, cm, true⟩ = ⟨c + ms.length, cm, true⟩ := by
  induction ms generalizing c with
  | nil => simp
  | cons m t ih =>
    simp only [List.foldl_cons]
    rw [jsLineStep_middle c cm m (h m (List.mem_cons_self _ _)),
      ih (fun x hx => h x (List.mem_cons_of_mem _ hx))]
    simp only [List.length_cons, JsScanState.mk.injEq]
    exact ⟨by omega, trivial, trivial⟩

theorem javaLineStep_opener (c : Nat) (cm : List String)
    (line : List Char) (hop : List.isPrefixOf ['/', '*'] (trimL line) = true)
    (hop2 : hasSub ['*', '/'] (trimL line) = false) :
    javaLineStep ⟨c, cm, false, []⟩ line =
      ⟨c + 1, cm, true, if openerFrag line ≠ [] then [openerFrag line] else []⟩ := by
  have hne : trimL line ≠ [] := by
    intro he
    rw [he] at hop
    simp [List.isPrefixOf] at hop
  simp only [javaLineStep, not_slashslash_of_slashstar _ hop, hop, hop2,
    Bool.false_eq_true, if_false, if_true, findSub_of_prefix _ _ hop hne,
    openerFrag, Nat.zero_add, List.nil_append]

theorem jsLineStep_opener (c : Nat) (cm : List String)
    (line : List Char) (hop : List.isPrefixOf ['/', '*'] (trimL line) = true)
    (hop2 : hasSub ['*', '/'] (trimL line) = false) :
    jsLineStep ⟨c, cm, false⟩ line =
      ⟨c + 1,
       cm ++ (if openerFrag line ≠ [] then [String.mk (openerFrag line)] else []),
       true⟩ := by
  have hne : trimL line ≠ [] := by
    intro he
    rw [he] at hop
    simp [List.isPrefixOf] at hop
  simp only [jsLineStep, not_slashslash_of_slashstar _ hop, hop, hop2,
    Bool.false_eq_true, if_false, if_true, findSub_of_prefix _ _ hop hne,
    openerFrag]
  split <;> simp

theorem javaLineStep_closer (c : Nat) (cm : List String) (acc : List (List Char))
    (line : List Char) (hcl : hasSub ['*', '/'] line = true) :
    javaLineStep ⟨c, cm, true, acc⟩ line =
      ⟨c + 1,
       cm ++ (if (acc ++ (if closerFrag line ≠ [] then [closerFrag line] else [])) ≠ []
              then [joinSp (acc ++ (if closerFrag line ≠ [] then [closerFrag line] else []))]
              else []),
       false, []⟩ := by
  simp only [javaLineStep, hcl, if_true, closerFrag]
  split <;> split <;> simp_all

theorem jsLineStep_closer (c : Nat) (cm : List String) (line : List Char)
    (hcl : hasSub ['*', '/'] line = true) :
    jsLineStep ⟨c, cm, true⟩ line =
      ⟨c + 1,
       cm ++ (if closerFrag line ≠ [] then [String.mk (closerFrag line)] else []),
       false⟩ := by
  simp only [jsLineStep, hcl, if_true, closerFrag]
  split <;> simp


/-- C5 (amended): on the Java path a block comment spanning
`N = middles + 2` lines contributes `N` to `comment_lines` and produces
at most one entry in `comments` — exactly one when some interior
fragment is non-empty, namely the non-empty interior fragments of all
its lines joined with single spaces. On the JavaScript path such a
comment also contributes `N` to `comment_lines`, but no merged entry is
produced: only the opening line's remainder and the closing line's
prefix are appended, separately, and the interior lines' text is
dropped. -/
theorem c5_block_comment_lexical (opener closer : List Char)
    (middles rest : List (List Char))
    (hop : List.isPrefixOf ['/', '*'] (trimL opener) = true)
    (hop2 : hasSub ['*', '/'] (trimL opener) = false)
    (hmid : ∀ m ∈ middles, hasSub ['*', '/'] m = false)
    (hcl : hasSub ['*', '/'] closer = true) :
    scanJava (opener :: middles ++ closer :: rest) =
      ⟨(middles.length + 2) + (scanJava rest).count,
       (if ((if openerFrag opener ≠ [] then [openerFrag opener] else []) ++
            (middles.map midFrag).filter (fun f => f ≠ []) ++
            (if closerFrag closer ≠ [] then [closerFrag closer] else [])) ≠ [] then
          [joinSp ((if openerFrag opener ≠ [] then [openerFrag opener] else []) ++
            (middles.map midFrag).filter (fun f => f ≠ []) ++
            (if closerFrag closer ≠ [] then [closerFrag closer] else []))]
        else []) ++ (scanJava rest).comments,
       (scanJava rest).inBlock, (scanJava rest).acc⟩ ∧
    scanJs (opener :: middles ++ closer :: rest) =
      ⟨(middles.length + 2) + (scanJs rest).count,
       ((if openerFrag opener ≠ [] then [String.mk (openerFrag opener)] else []) ++
        (if closerFrag closer ≠ [] then [String.mk (closerFrag closer)] else [])) ++
         (scanJs rest).comments,
       (scanJs rest).inBlock⟩ := by
  constructor
  · simp only [scanJava, initScan, List.foldl_cons, List.foldl_append]
    rw [javaLineStep_opener 0 [] opener hop hop2,
      javaFold_middles middles hmid,
      javaLineStep_closer _ _ _ closer hcl,
      scanJava_offset rest]
    simp only [List.append_assoc, List.nil_append]
    congr 1
    omega
  · simp only [scanJs, initJsScan, List.foldl_cons, List.foldl_append]
    rw [jsLineStep_opener 0 [] opener hop hop2,
      jsFold_middles middles hmid,
      jsLineStep_closer _ _ closer hcl,
      scanJs_offset rest]
    simp only [List.append_assoc, List.nil_append]
    congr 1
    omega

/-- Counterexample to C5 as stated: on the JavaScript path the 5-line
block comment `/* a ... e */` contributes 5 comment lines but yields
two separate entries `["a", "e"]`, not one merged entry, and the
interior text `b c d` is dropped. -/
theorem c5_counterexample_js_unmerged :
    (analyze_javascript "/* a\nb\nc\nd\ne */").comment_lines = 5 ∧
    (analyze_javascript "/* a\nb\nc\nd\ne */").comments = ["a", "e"] ∧
    ((analyze_javascript "/* a\nb\nc\nd\ne */").comments).length ≠ 1 := by
  refine ⟨by decide, by decide, by decide⟩

/-- Witness for C5 at the 5-line block comment: Java merges the five
fragments into one entry; JavaScript counts the same five lines. -/
theorem c5_block_comment_lexical_witness :
    (scanJava ("/* a".data :: ["b".data, "c".data, "d".data] ++ "e */".data :: [])).count = 5 ∧
    (scanJava ("/* a".data :: ["b".data, "c".data, "d".data] ++ "e */".data :: [])).comments =
      ["a b c d e"] ∧
    (scanJs ("/* a".data :: ["b".data, "c".data, "d".data] ++ "e */".data :: [])).count = 5 ∧
    (scanJs ("/* a".data :: ["b".data, "c".data, "d".data] ++ "e */".data :: [])).comments =
      ["a", "e"] := by
  have h := c5_block_comment_lexical "/* a".data "e */".data
    ["b".data, "c".data, "d".data] [] (by decide) (by decide) (by decide) (by decide)
  refine ⟨?_, ?_, ?_, ?_⟩
  · rw [h.1]; decide
  · rw [h.1]; decide
  · rw [h.2]; decide
  · rw [h.2]; decide


/-! ### C10: the JavaScript class pattern matches function declarations -/

theorem wordChar_not_ws (c : Char) (h : isWordChar c = true) : isWsChar c = false := by
  cases hc : isWsChar c with
  | false => rfl
  | true =>
    exfalso
    have hd : c = ' ' ∨ c = '\t' ∨ c = '\n' ∨ c = '\r' ∨ c = '\x0b' ∨ c = '\x0c' ∨
        c = '\x1c' ∨ c = '\x1d' ∨ c = '\x1e' ∨ c = '\x1f' ∨ c = '\x85' ∨
        c = '\xa0' ∨ c = '\u2028' ∨ c = '\u2029' := by
      rw [isWsChar] at hc
      simp only [Bool.or_eq_true, decide_eq_true_eq] at hc
      tauto
    rcases hd with h1|h1|h1|h1|h1|h1|h1|h1|h1|h1|h1|h1|h1|h1 <;>
      (subst h1; exact absurd h (by decide))

theorem dropWhile_all_stop (p : Char → Bool) (l m : List Char)
    (hall : ∀ c ∈ l, p c = true)
    (hstop : ∀ c, m.head? = some c → p c = false) :
    (l ++ m).dropWhile p = m := by
  induction l with
  | nil =>
    simp only [List.nil_append]
    cases m with
    | nil => rfl
    | cons c t => simp [List.dropWhile_cons, hstop c rfl]
  | cons c t ih =>
    simp [List.dropWhile_cons, hall c (List.mem_cons_self _ _),
      ih fun x hx => hall x (List.mem_cons_of_mem _ hx)]

theorem matchLit_append (w m : List Char) : matchLit w (w ++ m) = some m := by
  simp [matchLit, List.isPrefixOf_iff_prefix.mpr ⟨m, rfl⟩, List.drop_left]

theorem matchWs1_consume (ws m : List Char) (h0 : ws ≠ [])
    (hall : ∀ c ∈ ws, isWsChar c = true)
    (hstop : ∀ c, m.head? = some c → isWsChar c = false) :
    matchWs1 (ws ++ m) = some m := by
  cases ws with
  | nil => exact absurd rfl h0
  | cons w wt =>
    simp only [List.cons_append, matchWs1, hall w (List.mem_cons_self _ _), if_true]
    rw [dropWhile_all_stop _ wt m (fun c hc => hall c (List.mem_cons_of_mem _ hc)) hstop]

theorem matchWord1_consume (wd m : List Char) (h0 : wd ≠ [])
    (hall : ∀ c ∈ wd, isWordChar c = true)
    (hstop : ∀ c, m.head? = some c → isWordChar c = false) :
    matchWord1 (wd ++ m) = some m := by
  cases wd with
  | nil => exact absurd rfl h0
  | cons w wt =>
    simp only [List.cons_append, matchWord1, hall w (List.mem_cons_self _ _), if_true]
    rw [dropWhile_all_stop _ wt m (fun c hc => hall c (List.mem_cons_of_mem _ hc)) hstop]

theorem dropWs_consume (ws m : List Char) (hall : ∀ c ∈ ws, isWsChar c = true)
    (hstop : ∀ c, m.head? = some c → isWsChar c = false) :
    dropWs (ws ++ m) = m :=
  dropWhile_all_stop _ ws m hall hstop

theorem matchChar_cons (c : Char) (t : List Char) : matchChar c (c :: t) = some t := by
  simp [matchChar]

theorem matchParenBrace_consume (args ws3 post : List Char)
    (hargs : ∀ c ∈ args, c ≠ ')')
    (hws3 : ∀ c ∈ ws3, isWsChar c = true) :
    matchParenBrace ('(' :: (args ++ (')' :: (ws3 ++ ('\x7b' :: post))))) = some post := by
  have e1 : (args ++ (')' :: (ws3 ++ ('\x7b' :: post)))).dropWhile (fun c => c ≠ ')') =
      ')' :: (ws3 ++ ('\x7b' :: post)) :=
    dropWhile_all_stop _ _ _ (fun c hc => by simpa using hargs c hc)
      (fun c hc => by simp at hc; subst hc; decide)
  have e2 : dropWs (ws3 ++ ('\x7b' :: post)) = '\x7b' :: post :=
    dropWs_consume _ _ hws3 (fun c hc => by simp at hc; subst hc; decide)
  simp only [matchParenBrace, Option.bind_eq_bind, matchChar_cons,
    Option.some_bind, e1, e2]

/-- The `function\s+\w+\s*\([^)]*\)\s*\x7b` branch of the JavaScript
class pattern succeeds at a plain named function declaration. -/
theorem jsFuncDecl_matches (ws1 name ws2 args ws3 post : List Char)
    (hws1 : ws1 ≠ []) (hws1a : ∀ c ∈ ws1, isWsChar c = true)
    (hname : name ≠ []) (hnamea : ∀ c ∈ name, isWordChar c = true)
    (hws2 : ∀ c ∈ ws2, isWsChar c = true)
    (hargs : ∀ c ∈ args, c ≠ ')')
    (hws3 : ∀ c ∈ ws3, isWsChar c = true) :
    jsFuncDecl ("function".data ++ (ws1 ++ (name ++ (ws2 ++
      ('(' :: (args ++ (')' :: (ws3 ++ ('\x7b' :: post))))))))) = some post := by
  have e1 := matchLit_append "function".data (ws1 ++ (name ++ (ws2 ++
      ('(' :: (args ++ (')' :: (ws3 ++ ('\x7b' :: post))))))))
  have e2 : matchWs1 (ws1 ++ (name ++ (ws2 ++
      ('(' :: (args ++ (')' :: (ws3 ++ ('\x7b' :: post)))))))) = some (name ++ (ws2 ++
      ('(' :: (args ++ (')' :: (ws3 ++ ('\x7b' :: post))))))) := by
    refine matchWs1_consume _ _ hws1 hws1a ?_
    intro c hc
    cases name with
    | nil => exact absurd rfl hname
    | cons n nt =>
      simp at hc
      subst hc
      exact wordChar_not_ws _ (hnamea n (List.mem_cons_self _ _))
  have e3 : matchWord1 (name ++ (ws2 ++
      ('(' :: (args ++ (')' :: (ws3 ++ ('\x7b' :: post))))))) = some (ws2 ++
      ('(' :: (args ++ (')' :: (ws3 ++ ('\x7b' :: post)))))) := by
    refine matchWord1_consume _ _ hname hnamea ?_
    intro c hc
    cases ws2 with
    | nil =>
      simp only [List.nil_append, List.head?_cons, Option.some.injEq] at hc
      subst hc
      decide
    | cons w wt =>
      simp only [List.cons_append, List.head?_cons, Option.some.injEq] at hc
      subst hc
      cases hq : isWordChar w with
      | false => rfl
      | true =>
        exact absurd (hws2 w (List.mem_cons_self _ _))
          (by simp [wordChar_not_ws w hq])
  have e4 : dropWs (ws2 ++
      ('(' :: (args ++ (')' :: (ws3 ++ ('\x7b' :: post)))))) =
      '(' :: (args ++ (')' :: (ws3 ++ ('\x7b' :: post)))) :=
    dropWs_consume _ _ hws2 (fun c hc => by simp at hc; subst hc; decide)
  simp only [jsFuncDecl, Option.bind_eq_bind, e1, Option.some_bind, e2, e3, e4,
    matchParenBrace_consume args ws3 post hargs hws3]


theorem orElse_isSome_right (x y : Option (List Char)) (h : y.isSome = true) :
    (x <|> y).isSome = true := by
  cases x <;> simp_all

theorem jsClassPat_isSome_of_funcDecl (s r : List Char) (h : jsFuncDecl s = some r) :
    (jsClassPat s).isSome = true := by
  rw [jsClassPat]
  exact orElse_isSome_right _ _ (by rw [h]; rfl)

theorem countMatchesFuel_pos (pat : List Char → Option (List Char)) (fuel : Nat)
    (s : List Char) (hf : s.length ≤ fuel) (i : Nat) (hi : i < s.length)
    (hm : (pat (s.drop i)).isSome = true) : 1 ≤ countMatchesFuel pat fuel s := by
  induction fuel generalizing s i with
  | zero => omega
  | succ f ih =>
    cases s with
    | nil => simp at hi
    | cons c t =>
      rw [countMatchesFuel]
      cases hp : pat (c :: t) with
      | some r =>
        simp only [hp]
        split <;> omega
      | none =>
        simp only [hp]
        cases i with
        | zero =>
          rw [List.drop_zero, hp] at hm
          simp at hm
        | succ j =>
          exact ih t (by simpa using hf) j (by simpa using hi) (by simpa using hm)

/-- C10: the JavaScript class-detection pattern's second branch matches a
plain named function declaration, so any input containing
`function name(...) \x7b` (with the shown spacing/word shape) has
`class_count ≥ 1` even with no class declaration present. -/
theorem c10_js_class_pattern_counts_function_decls (code : String)
    (pre ws1 name ws2 args ws3 post : List Char)
    (hcode : code.data = pre ++ ("function".data ++ (ws1 ++ (name ++ (ws2 ++
      ('(' :: (args ++ (')' :: (ws3 ++ ('\x7b' :: post))))))))))
    (hws1 : ws1 ≠ []) (hws1a : ∀ c ∈ ws1, isWsChar c = true)
    (hname : name ≠ []) (hnamea : ∀ c ∈ name, isWordChar c = true)
    (hws2 : ∀ c ∈ ws2, isWsChar c = true)
    (hargs : ∀ c ∈ args, c ≠ ')')
    (hws3 : ∀ c ∈ ws3, isWsChar c = true) :
    1 ≤ (analyze_javascript code).class_count := by
  have hcc : (analyze_javascript code).class_count = countMatches jsClassPat code.data := by
    simp only [analyze_javascript]
  rw [hcc, countMatches, hcode]
  refine countMatchesFuel_pos _ _ _ le_rfl pre.length ?_ ?_
  · simp only [List.length_append, List.length_cons]
    omega
  · rw [List.drop_left]
    exact jsClassPat_isSome_of_funcDecl _ _
      (jsFuncDecl_matches ws1 name ws2 args ws3 post hws1 hws1a hname hnamea hws2
        hargs hws3)

/-- Witness for C10: `function foo() \x7b` contains no class declaration
yet `class_count ≥ 1`. -/
theorem c10_js_class_pattern_counts_function_decls_witness :
    1 ≤ (analyze_javascript "function foo() \x7b").class_count :=
  c10_js_class_pattern_counts_function_decls "function foo() \x7b"
    [] " ".data "foo".data [] [] " ".data []
    (by decide) (by decide) (by decide) (by decide) (by decide) (by decide)
    (by decide) (by decide)

end CodePolyglot
